import Mathlib

/-!
Verification development for the font-embedding core of
`nit-html-to-image` (`src/drilldown-webfonts.ts`).

The TypeScript source is shallowly embedded below.  The embedding choices:

* DOM elements are records of the `getComputedStyle` values the code reads
  (`fontFamily`, `fontWeight`, `fontStyle`), and a subtree is the pre-order
  list of its element nodes (the `TreeWalker` visit order, root included).
* A stylesheet is `Option (List CRule)`: `none` models a sheet whose
  `cssRules` getter throws (cross-origin), matching the `try/catch` skip.
* A font-face rule is a record of the `getPropertyValue` results the code
  reads; `""` models an absent property (CSSOM returns `""`, which is falsy).
* The network is an oracle `String -> Except String String`: `.ok dataUrl`
  models a successful fetch whose blob was read back as a data URL by the
  `FileReader`, `.error status` models a response with `res.ok = false`
  (the argument is the stringified status interpolated into the message).
* The three module-level `Map`s are association lists threaded explicitly;
  `mset` models `Map.set` (update in place or append), `mget` models
  `Map.get`, and `mgetT` composes `mget` with the JavaScript truthiness
  test `if (cached) ...` used at every cache lookup.
* Every operation additionally returns an event trace (`Ev`) recording
  cache reads/writes, style-rule scanning and network fetches, so that
  claims about "no new fetch" / "no cache touched" are statements about
  the trace.
* String manipulation (trim, split, quote stripping, lowercasing, the
  `src` regex) is implemented structurally on `List Char`, faithful to the
  JavaScript semantics for the ASCII inputs of interest (JS `\s` and
  `toLowerCase` also handle some non-ASCII characters; the code only ever
  meets CSS syntax, which is ASCII).
-/

/-- One leading and one trailing quote character, as matched by the
JavaScript character class in the quote-stripping replacements. -/
def isQuoteChar (c : Char) : Bool := c = '\'' || c = '"'

/-- Whitespace as matched by the regex class used between the url and
format clauses (ASCII part of JavaScript whitespace). -/
def isWsChar (c : Char) : Bool :=
  c = ' ' || c = '\t' || c = '\n' || c = '\r' || c = '\x0b' || c = '\x0c'

/-- JavaScript trim on a character list: drop whitespace at both ends. -/
def trimL (l : List Char) : List Char :=
  ((l.dropWhile isWsChar).reverse.dropWhile isWsChar).reverse

/-- JavaScript trim lifted to strings. -/
def trimS (s : String) : String := ⟨trimL s.data⟩

/-- Embedding of the quote-stripping replacement: the regex removes one
quote at position 0 and one quote at the last position, globally, which
amounts to dropping at most one quote from each end. -/
def stripQuotesL (l : List Char) : List Char :=
  let l1 :=
    match l with
    | [] => []
    | c :: t => if isQuoteChar c then t else l
  match l1.reverse with
  | [] => l1
  | c :: t => if isQuoteChar c then t.reverse else l1

/-- JavaScript lowercasing (ASCII fragment), on strings. -/
def toLowerS (s : String) : String := ⟨s.data.map Char.toLower⟩

/-- JavaScript string split on a comma: always returns at least one piece. -/
def splitCommaL : List Char → List (List Char)
  | [] => [[]]
  | c :: t =>
    if c = ',' then [] :: splitCommaL t
    else
      match splitCommaL t with
      | h :: r => (c :: h) :: r
      | [] => [[c]]

/-- JavaScript falsy-string default: the idiom `s || d`. -/
def orD (s d : String) : String := if s = "" then d else s

/-- Substring test (JavaScript includes), needle fixed, scanning the hay. -/
def containsSubL (needle : List Char) : List Char → Bool
  | [] => needle.isPrefixOf []
  | c :: t => needle.isPrefixOf (c :: t) || containsSubL needle t

/-- JavaScript includes lifted to strings. -/
def containsS (hay needle : String) : Bool := containsSubL needle.data hay.data

/-- Lexicographic comparison on UTF code points, as used by the default
JavaScript array sort on strings. -/
def lexLe : List Char → List Char → Bool
  | [], _ => true
  | _ :: _, [] => false
  | a :: as, b :: bs => if a < b then true else if b < a then false else lexLe as bs

/-- String order for the memoization key sort. -/
def strLe (a b : String) : Bool := lexLe a.data b.data

/-- Insertion into a sorted list of strings. -/
def insertSorted (x : String) : List String → List String
  | [] => [x]
  | y :: ys => if strLe x y then x :: y :: ys else y :: insertSorted x ys

/-- Sorting of the triple list, modelling the default array sort. -/
def sortStrings (l : List String) : List String := l.foldr insertSorted []

/-- JavaScript array join with a separator. -/
def joinSep (sep : String) : List String → String
  | [] => ""
  | [x] => x
  | x :: xs => x ++ sep ++ joinSep sep xs

/-- An association-list lookup modelling Map.get (first binding wins;
a Map has at most one binding per key anyway). -/
def mget (k : String) : List (String × String) → Option String
  | [] => none
  | (k', v) :: t => if k' = k then some v else mget k t

/-- Map.set: overwrite the existing binding in place, else append. -/
def mset (k v : String) : List (String × String) → List (String × String)
  | [] => [(k, v)]
  | (k', v') :: t => if k' = k then (k, v) :: t else (k', v') :: mset k v t

/-- A cache lookup as the source performs it: Map.get followed by the
truthiness test, so a stored empty string behaves like a miss. -/
def mgetT (k : String) (m : List (String × String)) : Option String :=
  match mget k m with
  | none => none
  | some c => if c = "" then none else some c

/-- An element of the walked subtree: the three computed-style values the
collector reads. -/
structure Elem where
  fontFamily : String
  fontWeight : String
  fontStyle : String
deriving DecidableEq

/-- A font-face rule as the code sees it: the getPropertyValue results for
the five properties it reads (empty string means the property is absent). -/
structure FaceRule where
  family : String
  weight : String
  style : String
  uRange : String
  src : String
deriving DecidableEq

/-- A CSS rule in a sheet: either a font-face rule or a rule of any other
type (filtered out by the type check in the matcher). -/
inductive CRule where
  | fontFace (ff : FaceRule)
  | other
deriving DecidableEq

/-- A stylesheet: none models a sheet whose cssRules getter throws
(cross-origin), which the matcher silently skips. -/
structure Sheet where
  rules : Option (List CRule)
deriving DecidableEq

/-- The host environment of one build: the walked subtree, the document
stylesheets and the network oracle. -/
structure Env where
  elems : List Elem
  sheets : List Sheet
  fetchOracle : String → Except String String

/-- The three module-level caches. -/
structure St where
  fontDataUrlCache : List (String × String)
  inlinedFaceCache : List (String × String)
  embedCssForTriplesCache : List (String × String)
deriving DecidableEq

/-- Observable events of one invocation: cache reads and writes, the
style-rule scan and network fetches. -/
inductive Ev where
  | fetch (url : String)
  | scanRules
  | readUrl (url : String)
  | writeUrl (url : String)
  | readFace (key : String)
  | writeFace (key : String)
  | readEmbed (key : String)
  | writeEmbed (key : String)
deriving DecidableEq

/-- First family of an element: split the computed font-family on commas,
trim each piece and strip its surrounding quotes, take the first. -/
def elemFirstFamily (e : Elem) : String :=
  ⟨((splitCommaL e.fontFamily.data).map (fun l => stripQuotesL (trimL l))).headD []⟩

/-- The generic-family test of the collector, embedding the regex
test with its start anchor: a case-insensitive prefix test. -/
def genericTest (family : String) : Bool :=
  let lf := (toLowerS family).data
  "serif".data.isPrefixOf lf || "sans-serif".data.isPrefixOf lf ||
  "monospace".data.isPrefixOf lf || "system-ui".data.isPrefixOf lf ||
  "ui-".data.isPrefixOf lf

/-- The computed style string of an element, with the two falsy defaults
applied as in the source. -/
def elemStyleVal (e : Elem) : String := orD (trimS (orD e.fontStyle "normal")) "normal"

/-- The contribution of one element to the used-triple set: none when the
first family is empty or passes the generic test, else the triple string. -/
def elemTriple? (e : Elem) : Option String :=
  let family := elemFirstFamily e
  if family = "" || genericTest family then none
  else
    let style := elemStyleVal e
    let weight0 := trimS (orD e.fontWeight "400")
    let weight := if weight0 = "normal" then "400" else if weight0 = "bold" then "700" else weight0
    some (family ++ "||" ++ weight ++ "||" ++ style)

/-- Stage 1: walk the subtree and collect the set of used triples, in
insertion order with duplicates collapsed (a JS Set of strings). -/
def collectUsedTriples (elems : List Elem) : List String :=
  elems.foldl
    (fun acc e =>
      match elemTriple? e with
      | none => acc
      | some t => if acc.contains t then acc else acc ++ [t])
    []

/-- Processed family of a font-face rule in the matcher: trimmed and
quote-stripped. -/
def declFamily (ff : FaceRule) : String := ⟨stripQuotesL (trimL ff.family.data)⟩

/-- Processed style of a font-face rule in the matcher. -/
def declStyleVal (ff : FaceRule) : String := orD (trimS (orD ff.style "normal")) "normal"

/-- The lowercase matching key of a font-face rule, none when its family
is empty. -/
def declKey? (ff : FaceRule) : Option String :=
  let family := declFamily ff
  if family = "" then none
  else
    let style := declStyleVal ff
    let weight0 := trimS (orD ff.weight "400")
    let weight := if weight0 = "normal" then "400" else if weight0 = "bold" then "700" else weight0
    some (toLowerS (family ++ "||" ++ weight ++ "||" ++ style))

/-- Stage 2: scan every readable sheet for font-face rules whose lowercase
key is in the want set, in discovery order. -/
def getMatchingFontFaceRules (sheets : List Sheet) (triples : List String) : List FaceRule :=
  let want := triples.map toLowerS
  sheets.foldl
    (fun out sh =>
      match sh.rules with
      | none => out
      | some rs =>
        rs.foldl
          (fun out r =>
            match r with
            | .other => out
            | .fontFace ff =>
              match declKey? ff with
              | none => out
              | some k => if want.contains k then out ++ [ff] else out)
          out)
    []

/-- Drop a literal prefix, failing when it is not there. -/
def stripPfx (p l : List Char) : Option (List Char) :=
  if p.isPrefixOf l then some (l.drop p.length) else none

/-- Index of the last occurrence of a character. -/
def lastIdxOf (c : Char) (l : List Char) : Option Nat :=
  match l.reverse.findIdx? (· = c) with
  | none => none
  | some i => some (l.length - 1 - i)

/-- The format part of the src regex after the literal: an optional quote
was already consumed by the caller; here the greedy one-or-more run of
non-quote characters, an optional quote, and the closing parenthesis, with
the backtracking the greedy run performs.  Returns the captured format and
the remainder of the input after the match. -/
def matchFmtBody (t : List Char) : Option (List Char × List Char) :=
  let run := t.takeWhile (fun c => !isQuoteChar c)
  if run.isEmpty then none
  else
    let after := t.drop run.length
    let backtrack : Option (List Char × List Char) :=
      match lastIdxOf ')' run with
      | none => none
      | some j => if j = 0 then none else some (run.take j, run.drop (j + 1) ++ after)
    match after with
    | c1 :: c2 :: rest =>
      if isQuoteChar c1 && c2 = ')' then some (run, rest) else backtrack
    | _ => backtrack

/-- One attempt of the src regex at the current position: literal url
opener, the non-parenthesis run, the closing parenthesis, optional
whitespace, the literal format opener, an optional quote, and the format
body.  Returns the two captures and the rest of the input. -/
def matchUrlFormat (l : List Char) : Option (List Char × List Char × List Char) := do
  let r1 ← stripPfx "url(".data l
  let u := r1.takeWhile (· ≠ ')')
  if u.isEmpty then none
  else do
    let r2 ← stripPfx ")".data (r1.drop u.length)
    let r3 := r2.dropWhile isWsChar
    let r4 ← stripPfx "format(".data r3
    let r5 :=
      match r4 with
      | [] => r4
      | c :: t => if isQuoteChar c then t else r4
    match matchFmtBody r5 with
    | none => none
    | some (f, rest) => some (u, f, rest)

/-- The matchAll loop: try the pattern at every position, left to right,
resuming after each match.  Fuel is the input length; every successful
match consumes at least the four url-opener characters, so the fuel never
runs out before the input does. -/
def scanAux : Nat → List Char → List (List Char × List Char)
  | 0, _ => []
  | _ + 1, [] => []
  | n + 1, l =>
    match matchUrlFormat l with
    | some (u, f, rest) => (u, f) :: scanAux n rest
    | none =>
      match l with
      | [] => []
      | _ :: t => scanAux n t

/-- A parsed source candidate of a font-face src. -/
structure Cand where
  url : String
  format : String
deriving DecidableEq

/-- Candidate extraction from the src property: the matchAll scan followed
by quote stripping on the url and lowercasing on the format. -/
def parseCandidates (src : String) : List Cand :=
  (scanAux src.data.length src.data).map
    (fun p => ⟨⟨stripQuotesL p.1⟩, ⟨p.2.map Char.toLower⟩⟩)

/-- Candidate choice: the first candidate whose format contains the woff2
substring, else the first candidate, else none. -/
def woff2Pick (urls : List Cand) : Option Cand :=
  match urls.find? (fun u => containsS u.format "woff2") with
  | some u => some u
  | none => urls.head?

/-- Output bundle of the resource inliner: result, url cache, trace. -/
structure UOut where
  val : Except String String
  fontDataUrlCache : List (String × String)
  tr : List Ev

/-- The miss path of the resource inliner: one fetch; a non-success status
raises the fetch error, a success stores the data URL and returns it. -/
def urlFetchMiss (oracle : String → Except String String) (url : String)
    (urlC : List (String × String)) : UOut :=
  match oracle url with
  | .error s =>
    ⟨.error ("Font fetch failed: " ++ url ++ " (" ++ s ++ ")"), urlC,
      [.readUrl url, .fetch url]⟩
  | .ok d => ⟨.ok d, mset url d urlC, [.readUrl url, .fetch url, .writeUrl url]⟩

/-- The resource inliner: memoized data-URL conversion of one url. -/
def urlToDataUrl (oracle : String → Except String String) (url : String)
    (urlC : List (String × String)) : UOut :=
  match mgetT url urlC with
  | some c => ⟨.ok c, urlC, [.readUrl url]⟩
  | none => urlFetchMiss oracle url urlC

/-- The signature key of a font-face rule used by the face cache. -/
def faceSig (ff : FaceRule) : String :=
  trimS ff.family ++ "||" ++ trimS (orD ff.weight "400") ++ "||" ++
    trimS (orD ff.style "normal") ++ "||" ++ trimS ff.uRange

/-- The rendered replacement font-face text, exactly as the template in the
source concatenates it. -/
def renderFace (family style weight uRange dataUrl : String) : String :=
  "@font-face\x7b" ++ ("font-family:" ++ family ++ ";") ++
    ("font-style:" ++ orD style "normal" ++ ";") ++
    ("font-weight:" ++ orD weight "400" ++ ";" ++
      (if uRange = "" then "" else "unicode-range:" ++ uRange ++ ";") ++
      "src:url(" ++ dataUrl ++ ") format('woff2');") ++
    "font-display:block;" ++ "\x7d"

/-- Output bundle of the face inliner. -/
structure FOut where
  val : Except String (Option String)
  fontDataUrlCache : List (String × String)
  inlinedFaceCache : List (String × String)
  tr : List Ev

/-- Stage 3: inline one font-face rule, memoized by its signature; null
when the rule has no parsable source candidate. -/
def inlineFontFace (oracle : String → Except String String) (ff : FaceRule)
    (urlC faceC : List (String × String)) : FOut :=
  let family := trimS ff.family
  let weight := trimS (orD ff.weight "400")
  let style := trimS (orD ff.style "normal")
  let uRange := trimS ff.uRange
  let cacheKey := faceSig ff
  match mgetT cacheKey faceC with
  | some c => ⟨.ok (some c), urlC, faceC, [.readFace cacheKey]⟩
  | none =>
    let urls := parseCandidates ff.src
    match woff2Pick urls with
    | none => ⟨.ok none, urlC, faceC, [.readFace cacheKey]⟩
    | some p =>
      match urlToDataUrl oracle p.url urlC with
      | ⟨.error e, urlC', tr⟩ => ⟨.error e, urlC', faceC, .readFace cacheKey :: tr⟩
      | ⟨.ok d, urlC', tr⟩ =>
        let css := renderFace family style weight uRange d
        ⟨.ok (some css), urlC', mset cacheKey css faceC,
          (.readFace cacheKey :: tr) ++ [.writeFace cacheKey]⟩

/-- Output bundle of the per-rule loop of the builder. -/
structure POut where
  val : Except String (List String)
  fontDataUrlCache : List (String × String)
  inlinedFaceCache : List (String × String)
  tr : List Ev

/-- The per-rule loop of the builder: inline each matched rule in order,
keep the truthy results, stop at the first fetch failure. -/
def processRules (oracle : String → Except String String) :
    List FaceRule → List (String × String) → List (String × String) → POut
  | [], urlC, faceC => ⟨.ok [], urlC, faceC, []⟩
  | r :: rs, urlC, faceC =>
    match inlineFontFace oracle r urlC faceC with
    | ⟨.error e, uc, fc, tr⟩ => ⟨.error e, uc, fc, tr⟩
    | ⟨.ok none, uc, fc, tr⟩ =>
      match processRules oracle rs uc fc with
      | ⟨v, uc', fc', tr'⟩ => ⟨v, uc', fc', tr ++ tr'⟩
    | ⟨.ok (some css), uc, fc, tr⟩ =>
      match processRules oracle rs uc fc with
      | ⟨.ok parts, uc', fc', tr'⟩ =>
        ⟨.ok (if css = "" then parts else css :: parts), uc', fc', tr ++ tr'⟩
      | ⟨.error e, uc', fc', tr'⟩ => ⟨.error e, uc', fc', tr ++ tr'⟩

/-- The memoization key of the builder: sorted triples joined with a bar. -/
def buildKey (triples : List String) : String := joinSep "|" (sortStrings triples)

/-- Output bundle of the builder. -/
structure BOut where
  val : Except String String
  st : St
  tr : List Ev

/-- Stage 4: the exported builder.  Collect the used triples; empty set
short-circuits to the empty string; otherwise consult the embed cache by
the sorted key, and on a miss match the rules, inline them sequentially,
join the results with newlines and store the result. -/
def buildFontEmbedCSS (env : Env) (st : St) : BOut :=
  let triples := collectUsedTriples env.elems
  if triples.isEmpty then ⟨.ok "", st, []⟩
  else
    let key := buildKey triples
    match mgetT key st.embedCssForTriplesCache with
    | some c => ⟨.ok c, st, [.readEmbed key]⟩
    | none =>
      let rules := getMatchingFontFaceRules env.sheets triples
      match processRules env.fetchOracle rules st.fontDataUrlCache st.inlinedFaceCache with
      | ⟨.error e, uc, fc, tr⟩ =>
        ⟨.error e, ⟨uc, fc, st.embedCssForTriplesCache⟩,
          .readEmbed key :: .scanRules :: tr⟩
      | ⟨.ok parts, uc, fc, tr⟩ =>
        let result := joinSep "\n" parts
        ⟨.ok result, ⟨uc, fc, mset key result st.embedCssForTriplesCache⟩,
          (.readEmbed key :: .scanRules :: tr) ++ [.writeEmbed key]⟩

/-- Strings with equal character data are equal. -/
theorem strData_inj {a b : String} (h : a.data = b.data) : a = b := by
  cases a with
  | mk da => cases b with
    | mk db => exact congrArg String.mk h

/-- Character data of an append. -/
theorem strData_append (a b : String) : (a ++ b).data = a.data ++ b.data := by
  cases a; cases b; rfl

/-- An append whose left part is nonempty is nonempty. -/
theorem append_ne_empty_left {a : String} (b : String) (h : a ≠ "") : a ++ b ≠ "" := by
  intro hc
  apply h
  have hd := congrArg String.data hc
  rw [strData_append] at hd
  have ha : a.data = [] := (List.append_eq_nil.mp hd).1
  exact strData_inj (by simpa using ha)

/-- Lowercasing distributes over append. -/
theorem toLowerS_append (a b : String) : toLowerS (a ++ b) = toLowerS a ++ toLowerS b := by
  apply strData_inj
  simp [toLowerS, strData_append]

/-- Setting a key makes it readable. -/
theorem mget_mset_self (k v : String) (m : List (String × String)) :
    mget k (mset k v m) = some v := by
  induction m with
  | nil => simp [mget, mset]
  | cons p t ih =>
    obtain ⟨k', v'⟩ := p
    by_cases h : k' = k <;> simp [mget, mset, h, ih]

/-- Setting a key leaves the other keys unchanged. -/
theorem mget_mset_ne (k k' v : String) (m : List (String × String)) (h : k' ≠ k) :
    mget k' (mset k v m) = mget k' m := by
  induction m with
  | nil =>
    simp only [mset, mget]
    rw [if_neg (fun hc => h hc.symm)]
  | cons p t ih =>
    obtain ⟨k'', v''⟩ := p
    by_cases hk : k'' = k
    · subst hk
      simp only [mset, if_pos rfl, mget]
      rw [if_neg (fun hc => h hc.symm), if_neg (fun hc => h hc.symm)]
    · simp only [mset, if_neg hk, mget]
      by_cases hk2 : k'' = k'
      · simp [hk2]
      · simp [hk2, ih]

/-- A truthy hit is a stored nonempty value. -/
theorem mgetT_eq_some {k : String} {m : List (String × String)} {c : String}
    (h : mgetT k m = some c) : mget k m = some c ∧ c ≠ "" := by
  unfold mgetT at h
  cases hm : mget k m with
  | none => rw [hm] at h; cases h
  | some x =>
    rw [hm] at h
    by_cases hx : x = ""
    · simp [hx] at h
    · simp [hx] at h
      exact ⟨congrArg some h, h ▸ hx⟩

/-- A truthy lookup after setting the same key with a nonempty value. -/
theorem mgetT_mset_self {k v : String} {m : List (String × String)} (hv : v ≠ "") :
    mgetT k (mset k v m) = some v := by
  unfold mgetT
  rw [mget_mset_self]
  simp [hv]

/-- Truthy entries survive further writes: every cache write in the source
happens only after a falsy lookup of the written key. -/
def pres (m m' : List (String × String)) : Prop :=
  ∀ k c, mgetT k m = some c → mgetT k m' = some c

theorem pres_refl (m : List (String × String)) : pres m m := fun _ _ h => h

theorem pres_trans {a b c : List (String × String)}
    (h1 : pres a b) (h2 : pres b c) : pres a c :=
  fun k v h => h2 k v (h1 k v h)

/-- A write into a truthily-absent key preserves all truthy entries. -/
theorem pres_mset_of_miss {k : String} {m : List (String × String)} (v : String)
    (h : mgetT k m = none) : pres m (mset k v m) := by
  intro k' c hc
  by_cases hk : k' = k
  · subst hk
    rw [h] at hc
    cases hc
  · unfold mgetT at hc ⊢
    rw [mget_mset_ne _ _ _ _ hk]
    exact hc

/-- A newline join of nonempty parts is empty only for the empty list. -/
theorem joinSep_eq_empty {parts : List String} (hne : ∀ p ∈ parts, p ≠ "")
    (h : joinSep "\n" parts = "") : parts = [] := by
  match parts with
  | [] => rfl
  | [x] => exact absurd h (hne x (by simp))
  | x :: y :: t =>
    exfalso
    simp only [joinSep] at h
    exact append_ne_empty_left _ (append_ne_empty_left _ (hne x (by simp))) h

/-- The rendered font-face text is never empty (it begins with the
at-sign of the template literal). -/
theorem renderFace_ne_empty (family style weight uRange dataUrl : String) :
    renderFace family style weight uRange dataUrl ≠ "" := by
  unfold renderFace
  apply append_ne_empty_left
  apply append_ne_empty_left
  apply append_ne_empty_left
  apply append_ne_empty_left
  apply append_ne_empty_left
  decide

/-- Resource inliner on a truthy cache hit: cached value, no fetch. -/
theorem urlToDataUrl_hit {u : String} {uc : List (String × String)} {c : String}
    (o : String → Except String String) (h : mgetT u uc = some c) :
    urlToDataUrl o u uc = ⟨.ok c, uc, [.readUrl u]⟩ := by
  simp [urlToDataUrl, h]

/-- Resource inliner on a miss with a failing response: the fetch error,
cache unchanged, trace ends at the fetch. -/
theorem urlToDataUrl_miss_err {o : String → Except String String} {u : String}
    {uc : List (String × String)} {s : String}
    (h : mgetT u uc = none) (ho : o u = .error s) :
    urlToDataUrl o u uc =
      ⟨.error ("Font fetch failed: " ++ u ++ " (" ++ s ++ ")"), uc,
        [.readUrl u, .fetch u]⟩ := by
  simp [urlToDataUrl, urlFetchMiss, h, ho]

/-- Resource inliner on a miss with a successful response: data URL
returned and stored. -/
theorem urlToDataUrl_miss_ok {o : String → Except String String} {u : String}
    {uc : List (String × String)} {d : String}
    (h : mgetT u uc = none) (ho : o u = .ok d) :
    urlToDataUrl o u uc =
      ⟨.ok d, mset u d uc, [.readUrl u, .fetch u, .writeUrl u]⟩ := by
  simp [urlToDataUrl, urlFetchMiss, h, ho]

/-- The resource inliner preserves truthy cache entries. -/
theorem urlToDataUrl_pres (o : String → Except String String) (u : String)
    (uc : List (String × String)) : pres uc (urlToDataUrl o u uc).fontDataUrlCache := by
  cases h : mgetT u uc with
  | some c => rw [urlToDataUrl_hit o h]; exact pres_refl uc
  | none =>
    cases ho : o u with
    | error s => rw [urlToDataUrl_miss_err h ho]; exact pres_refl uc
    | ok d => rw [urlToDataUrl_miss_ok h ho]; exact pres_mset_of_miss _ h

/-- The resource inliner always reads its cache for the requested url. -/
theorem urlToDataUrl_readUrl_mem (o : String → Except String String) (u : String)
    (uc : List (String × String)) : Ev.readUrl u ∈ (urlToDataUrl o u uc).tr := by
  cases h : mgetT u uc with
  | some c => rw [urlToDataUrl_hit o h]; simp
  | none =>
    cases ho : o u with
    | error s => rw [urlToDataUrl_miss_err h ho]; simp
    | ok d => rw [urlToDataUrl_miss_ok h ho]; simp

/-- A fetch for a url whose response fails can only be the last event of
the resource inliner, which then returns the fetch error. -/
theorem urlToDataUrl_fetch_inv {o : String → Except String String} {u u' s' : String}
    {uc : List (String × String)}
    (ho : o u' = .error s') (hm : Ev.fetch u' ∈ (urlToDataUrl o u uc).tr) :
    (urlToDataUrl o u uc).val =
      .error ("Font fetch failed: " ++ u' ++ " (" ++ s' ++ ")")
    ∧ (urlToDataUrl o u uc).tr.getLast? = some (.fetch u') := by
  cases h : mgetT u uc with
  | some c => rw [urlToDataUrl_hit o h] at hm; simp at hm
  | none =>
    cases ho2 : o u with
    | error s =>
      rw [urlToDataUrl_miss_err h ho2] at hm ⊢
      have hu : u' = u := by simpa using hm
      subst hu
      rw [ho] at ho2
      cases ho2
      simp [List.getLast?]
    | ok d =>
      rw [urlToDataUrl_miss_ok h ho2] at hm
      have hu : u' = u := by simpa using hm
      subst hu
      rw [ho] at ho2
      cases ho2

/-- Face inliner on a truthy signature hit: the cached text, no state
change, no fetch. -/
theorem inlineFontFace_hit {ff : FaceRule} {fc : List (String × String)} {c : String}
    (o : String → Except String String) (uc : List (String × String))
    (h : mgetT (faceSig ff) fc = some c) :
    inlineFontFace o ff uc fc = ⟨.ok (some c), uc, fc, [.readFace (faceSig ff)]⟩ := by
  simp [inlineFontFace, h]

/-- Face inliner on a miss with no source candidate: null, no state
change, no fetch. -/
theorem inlineFontFace_nopick {ff : FaceRule} {fc : List (String × String)}
    (o : String → Except String String) (uc : List (String × String))
    (h : mgetT (faceSig ff) fc = none)
    (hw : woff2Pick (parseCandidates ff.src) = none) :
    inlineFontFace o ff uc fc = ⟨.ok none, uc, fc, [.readFace (faceSig ff)]⟩ := by
  simp [inlineFontFace, h, hw]

/-- Face inliner on a miss whose chosen candidate fails to fetch: the
error propagates, the face cache is not written. -/
theorem inlineFontFace_pick_err {o : String → Except String String} {ff : FaceRule}
    {uc fc : List (String × String)} {p : Cand} {e : String}
    {uc' : List (String × String)} {tr : List Ev}
    (h : mgetT (faceSig ff) fc = none)
    (hw : woff2Pick (parseCandidates ff.src) = some p)
    (hu : urlToDataUrl o p.url uc = ⟨.error e, uc', tr⟩) :
    inlineFontFace o ff uc fc = ⟨.error e, uc', fc, .readFace (faceSig ff) :: tr⟩ := by
  simp [inlineFontFace, h, hw, hu]

/-- Face inliner on a miss whose chosen candidate fetches: the rendered
replacement text, stored under the signature. -/
theorem inlineFontFace_pick_ok {o : String → Except String String} {ff : FaceRule}
    {uc fc : List (String × String)} {p : Cand} {d : String}
    {uc' : List (String × String)} {tr : List Ev}
    (h : mgetT (faceSig ff) fc = none)
    (hw : woff2Pick (parseCandidates ff.src) = some p)
    (hu : urlToDataUrl o p.url uc = ⟨.ok d, uc', tr⟩) :
    inlineFontFace o ff uc fc =
      ⟨.ok (some (renderFace (trimS ff.family) (trimS (orD ff.style "normal"))
          (trimS (orD ff.weight "400")) (trimS ff.uRange) d)),
        uc',
        mset (faceSig ff)
          (renderFace (trimS ff.family) (trimS (orD ff.style "normal"))
            (trimS (orD ff.weight "400")) (trimS ff.uRange) d) fc,
        (.readFace (faceSig ff) :: tr) ++ [.writeFace (faceSig ff)]⟩ := by
  simp [inlineFontFace, h, hw, hu]

/-- A non-null face-inliner result is a nonempty string. -/
theorem inlineFontFace_some_ne {o : String → Except String String} {ff : FaceRule}
    {uc fc uc2 fc2 : List (String × String)} {css : String} {tr : List Ev}
    (h : inlineFontFace o ff uc fc = ⟨.ok (some css), uc2, fc2, tr⟩) : css ≠ "" := by
  cases hfc : mgetT (faceSig ff) fc with
  | some c =>
    rw [inlineFontFace_hit o uc hfc] at h
    cases h
    exact (mgetT_eq_some hfc).2
  | none =>
    cases hw : woff2Pick (parseCandidates ff.src) with
    | none =>
      rw [inlineFontFace_nopick o uc hfc hw] at h
      cases h
    | some p =>
      cases hu : urlToDataUrl o p.url uc with
      | mk v uc' tr' =>
        cases v with
        | error e =>
          rw [inlineFontFace_pick_err hfc hw hu] at h
          cases h
        | ok d =>
          rw [inlineFontFace_pick_ok hfc hw hu] at h
          cases h
          exact renderFace_ne_empty _ _ _ _ _

/-- Last element of a cons with a nonempty tail. -/
theorem getLast?_cons_of_ne_nil {α : Type} {a : α} {l : List α} (h : l ≠ []) :
    (a :: l).getLast? = l.getLast? := by
  cases l with
  | nil => exact absurd rfl h
  | cons b t => rfl

/-- The face inliner preserves truthy entries of both caches. -/
theorem inlineFontFace_pres (o : String → Except String String) (ff : FaceRule)
    (uc fc : List (String × String)) :
    pres uc (inlineFontFace o ff uc fc).fontDataUrlCache
    ∧ pres fc (inlineFontFace o ff uc fc).inlinedFaceCache := by
  cases hfc : mgetT (faceSig ff) fc with
  | some c => rw [inlineFontFace_hit o uc hfc]; exact ⟨pres_refl uc, pres_refl fc⟩
  | none =>
    cases hw : woff2Pick (parseCandidates ff.src) with
    | none => rw [inlineFontFace_nopick o uc hfc hw]; exact ⟨pres_refl uc, pres_refl fc⟩
    | some p =>
      have hup := urlToDataUrl_pres o p.url uc
      cases hu : urlToDataUrl o p.url uc with
      | mk v uc' tr' =>
        rw [hu] at hup
        cases v with
        | error e =>
          rw [inlineFontFace_pick_err hfc hw hu]
          exact ⟨hup, pres_refl fc⟩
        | ok d =>
          rw [inlineFontFace_pick_ok hfc hw hu]
          exact ⟨hup, pres_mset_of_miss _ hfc⟩

/-- After a non-null inlining the signature is truthily cached with the
returned text. -/
theorem inlineFontFace_some_sig {o : String → Except String String} {ff : FaceRule}
    {uc fc uc2 fc2 : List (String × String)} {css : String} {tr : List Ev}
    (h : inlineFontFace o ff uc fc = ⟨.ok (some css), uc2, fc2, tr⟩) :
    mgetT (faceSig ff) fc2 = some css := by
  cases hfc : mgetT (faceSig ff) fc with
  | some c =>
    rw [inlineFontFace_hit o uc hfc] at h
    cases h
    exact hfc
  | none =>
    cases hw : woff2Pick (parseCandidates ff.src) with
    | none =>
      rw [inlineFontFace_nopick o uc hfc hw] at h
      cases h
    | some p =>
      cases hu : urlToDataUrl o p.url uc with
      | mk v uc' tr' =>
        cases v with
        | error e =>
          rw [inlineFontFace_pick_err hfc hw hu] at h
          cases h
        | ok d =>
          rw [inlineFontFace_pick_ok hfc hw hu] at h
          cases h
          exact mgetT_mset_self (renderFace_ne_empty _ _ _ _ _)

/-- A null result of the face inliner changes nothing: the rule had a
truthily-absent signature and no parsable candidate. -/
theorem inlineFontFace_none_inv {o : String → Except String String} {ff : FaceRule}
    {uc fc uc2 fc2 : List (String × String)} {tr : List Ev}
    (h : inlineFontFace o ff uc fc = ⟨.ok none, uc2, fc2, tr⟩) :
    uc2 = uc ∧ fc2 = fc ∧ tr = [.readFace (faceSig ff)]
    ∧ mgetT (faceSig ff) fc = none
    ∧ woff2Pick (parseCandidates ff.src) = none := by
  cases hfc : mgetT (faceSig ff) fc with
  | some c =>
    rw [inlineFontFace_hit o uc hfc] at h
    cases h
  | none =>
    cases hw : woff2Pick (parseCandidates ff.src) with
    | none =>
      rw [inlineFontFace_nopick o uc hfc hw] at h
      cases h
      exact ⟨rfl, rfl, rfl, rfl, rfl⟩
    | some p =>
      cases hu : urlToDataUrl o p.url uc with
      | mk v uc' tr' =>
        cases v with
        | error e =>
          rw [inlineFontFace_pick_err hfc hw hu] at h
          cases h
        | ok d =>
          rw [inlineFontFace_pick_ok hfc hw hu] at h
          cases h

/-- A fetch for a url with a failing response can only be the last event
of the face inliner, which then returns the fetch error. -/
theorem inlineFontFace_fetch_inv {o : String → Except String String} {ff : FaceRule}
    {uc fc : List (String × String)} {u' s' : String}
    (ho : o u' = .error s')
    (hm : Ev.fetch u' ∈ (inlineFontFace o ff uc fc).tr) :
    (inlineFontFace o ff uc fc).val =
      .error ("Font fetch failed: " ++ u' ++ " (" ++ s' ++ ")")
    ∧ (inlineFontFace o ff uc fc).tr.getLast? = some (.fetch u') := by
  cases hfc : mgetT (faceSig ff) fc with
  | some c =>
    rw [inlineFontFace_hit o uc hfc] at hm
    simp at hm
  | none =>
    cases hw : woff2Pick (parseCandidates ff.src) with
    | none =>
      rw [inlineFontFace_nopick o uc hfc hw] at hm
      simp at hm
    | some p =>
      have hui := @urlToDataUrl_fetch_inv o p.url u' s' uc ho
      cases hu : urlToDataUrl o p.url uc with
      | mk v uc' tr' =>
        rw [hu] at hui
        cases v with
        | error e =>
          rw [inlineFontFace_pick_err hfc hw hu] at hm ⊢
          have hm' : Ev.fetch u' ∈ tr' := by simpa using hm
          obtain ⟨hv, hl⟩ := hui hm'
          have htr : tr' ≠ [] := by
            intro hnil
            rw [hnil] at hm'
            simp at hm'
          cases hv
          refine ⟨rfl, ?_⟩
          simpa [getLast?_cons_of_ne_nil htr] using hl
        | ok d =>
          rw [inlineFontFace_pick_ok hfc hw hu] at hm
          have hm' : Ev.fetch u' ∈ tr' := by simpa using hm
          obtain ⟨hv, -⟩ := hui hm'
          cases hv

/-- Last element of an append with a nonempty right part. -/
theorem getLast?_append_of_ne_nil {α : Type} {l2 : List α} (l1 : List α) (h : l2 ≠ []) :
    (l1 ++ l2).getLast? = l2.getLast? := by
  induction l1 with
  | nil => rfl
  | cons a t ih =>
    have ht : t ++ l2 ≠ [] := fun hnil => h ((List.append_eq_nil.mp hnil).2)
    rw [List.cons_append, getLast?_cons_of_ne_nil ht, ih]

/-- The per-rule loop preserves truthy entries of both caches. -/
theorem processRules_pres (o : String → Except String String) (rs : List FaceRule)
    (uc fc : List (String × String)) :
    pres uc (processRules o rs uc fc).fontDataUrlCache
    ∧ pres fc (processRules o rs uc fc).inlinedFaceCache := by
  induction rs generalizing uc fc with
  | nil => exact ⟨pres_refl uc, pres_refl fc⟩
  | cons r rs ih =>
    have hpre := inlineFontFace_pres o r uc fc
    cases hI : inlineFontFace o r uc fc with
    | mk v uc1 fc1 tr1 =>
      rw [hI] at hpre
      cases v with
      | error e =>
        simp only [processRules, hI]
        exact hpre
      | ok ov =>
        have hih := ih uc1 fc1
        cases hP : processRules o rs uc1 fc1 with
        | mk v' uc' fc' tr2 =>
          rw [hP] at hih
          cases ov with
          | none =>
            simp only [processRules, hI, hP]
            exact ⟨pres_trans hpre.1 hih.1, pres_trans hpre.2 hih.2⟩
          | some css =>
            cases v' with
            | ok parts =>
              simp only [processRules, hI, hP]
              exact ⟨pres_trans hpre.1 hih.1, pres_trans hpre.2 hih.2⟩
            | error e =>
              simp only [processRules, hI, hP]
              exact ⟨pres_trans hpre.1 hih.1, pres_trans hpre.2 hih.2⟩

/-- Every part the loop keeps is a nonempty string (the loop only pushes
truthy results). -/
theorem processRules_parts_ne {o : String → Except String String} {rs : List FaceRule}
    {uc fc uc2 fc2 : List (String × String)} {parts : List String} {tr : List Ev}
    (h : processRules o rs uc fc = ⟨.ok parts, uc2, fc2, tr⟩) :
    ∀ p ∈ parts, p ≠ "" := by
  induction rs generalizing uc fc uc2 fc2 parts tr with
  | nil =>
    simp only [processRules] at h
    cases h
    simp
  | cons r rs ih =>
    cases hI : inlineFontFace o r uc fc with
    | mk v uc1 fc1 tr1 =>
      cases v with
      | error e =>
        simp only [processRules, hI] at h
        cases h
      | ok ov =>
        cases hP : processRules o rs uc1 fc1 with
        | mk v' uc' fc' tr2 =>
          cases ov with
          | none =>
            simp only [processRules, hI, hP] at h
            cases h
            exact ih hP
          | some css =>
            cases v' with
            | error e =>
              simp only [processRules, hI, hP] at h
              cases h
            | ok parts' =>
              simp only [processRules, hI, hP] at h
              injection h with e1 e2 e3 e4
              injection e1 with e1'
              intro p hp
              by_cases hcss : css = ""
              · rw [if_pos hcss] at e1'
                exact ih hP p (e1' ▸ hp)
              · rw [if_neg hcss] at e1'
                rw [← e1'] at hp
                cases hp with
                | head => exact hcss
                | tail _ hp' => exact ih hP p hp'

/-- A loop that kept nothing changed nothing and fetched nothing: every
rule either hit the face cache with a truthy value (which would have been
kept) or was null without touching the network. -/
theorem processRules_ok_nil_inv {o : String → Except String String} {rs : List FaceRule}
    {uc fc uc2 fc2 : List (String × String)} {tr : List Ev}
    (h : processRules o rs uc fc = ⟨.ok [], uc2, fc2, tr⟩) :
    uc2 = uc ∧ fc2 = fc ∧ ∀ u, Ev.fetch u ∉ tr := by
  induction rs generalizing uc fc uc2 fc2 tr with
  | nil =>
    simp only [processRules] at h
    cases h
    exact ⟨rfl, rfl, by simp⟩
  | cons r rs ih =>
    cases hI : inlineFontFace o r uc fc with
    | mk v uc1 fc1 tr1 =>
      cases v with
      | error e =>
        simp only [processRules, hI] at h
        cases h
      | ok ov =>
        cases hP : processRules o rs uc1 fc1 with
        | mk v' uc' fc' tr2 =>
          cases ov with
          | none =>
            simp only [processRules, hI, hP] at h
            cases h
            obtain ⟨h1, h2, h3, -, -⟩ := inlineFontFace_none_inv hI
            subst h1
            subst h2
            obtain ⟨g1, g2, g3⟩ := ih hP
            refine ⟨g1, g2, fun u => ?_⟩
            rw [h3]
            simp only [List.mem_append, List.mem_singleton]
            rintro (hc | hc)
            · cases hc
            · exact g3 u hc
          | some css =>
            cases v' with
            | error e =>
              simp only [processRules, hI, hP] at h
              cases h
            | ok parts' =>
              simp only [processRules, hI, hP] at h
              injection h with e1 e2 e3 e4
              injection e1 with e1'
              have hcss := inlineFontFace_some_ne hI
              rw [if_neg hcss] at e1'
              cases e1'

/-- A fetch for a url with a failing response can only be the last event
of the loop, which then returns the fetch error. -/
theorem processRules_fetch_inv {o : String → Except String String} {rs : List FaceRule}
    {uc fc : List (String × String)} {u' s' : String}
    (ho : o u' = .error s')
    (hm : Ev.fetch u' ∈ (processRules o rs uc fc).tr) :
    (processRules o rs uc fc).val =
      .error ("Font fetch failed: " ++ u' ++ " (" ++ s' ++ ")")
    ∧ (processRules o rs uc fc).tr.getLast? = some (.fetch u') := by
  induction rs generalizing uc fc with
  | nil =>
    simp only [processRules] at hm
    simp at hm
  | cons r rs ih =>
    cases hI : inlineFontFace o r uc fc with
    | mk v uc1 fc1 tr1 =>
      have hinl := @inlineFontFace_fetch_inv o r uc fc u' s' ho
      rw [hI] at hinl
      cases v with
      | error e =>
        simp only [processRules, hI] at hm ⊢
        obtain ⟨hv, hl⟩ := hinl hm
        exact ⟨by simpa using hv, by simpa using hl⟩
      | ok ov =>
        cases hP : processRules o rs uc1 fc1 with
        | mk v' uc' fc' tr2 =>
          have hih := @ih uc1 fc1
          rw [hP] at hih
          cases ov with
          | none =>
            simp only [processRules, hI, hP] at hm ⊢
            rcases List.mem_append.mp hm with hc | hc
            · obtain ⟨hv, -⟩ := hinl hc
              cases hv
            · obtain ⟨hv, hl⟩ := hih hc
              have ht2 : tr2 ≠ [] := by
                intro hnil
                rw [hnil] at hc
                simp at hc
              exact ⟨hv, by rw [getLast?_append_of_ne_nil _ ht2]; exact hl⟩
          | some css =>
            cases v' with
            | error e =>
              simp only [processRules, hI, hP] at hm ⊢
              rcases List.mem_append.mp hm with hc | hc
              · obtain ⟨hv, -⟩ := hinl hc
                cases hv
              · obtain ⟨hv, hl⟩ := hih hc
                have ht2 : tr2 ≠ [] := by
                  intro hnil
                  rw [hnil] at hc
                  simp at hc
                exact ⟨hv, by rw [getLast?_append_of_ne_nil _ ht2]; exact hl⟩
            | ok parts' =>
              simp only [processRules, hI, hP] at hm ⊢
              rcases List.mem_append.mp hm with hc | hc
              · obtain ⟨hv, -⟩ := hinl hc
                cases hv
              · obtain ⟨hv, -⟩ := hih hc
                cases hv

/-- The builder on an empty collected set: empty string, untouched state,
empty trace. -/
theorem build_empty {env : Env} {st : St} (h : collectUsedTriples env.elems = []) :
    buildFontEmbedCSS env st = ⟨.ok "", st, []⟩ := by
  simp [buildFontEmbedCSS, h]

/-- The builder on a truthy embed-cache hit: the cached text, untouched
state, a single read event. -/
theorem build_hit {env : Env} {st : St} {c : String}
    (hne : collectUsedTriples env.elems ≠ [])
    (hc : mgetT (buildKey (collectUsedTriples env.elems)) st.embedCssForTriplesCache = some c) :
    buildFontEmbedCSS env st =
      ⟨.ok c, st, [.readEmbed (buildKey (collectUsedTriples env.elems))]⟩ := by
  have hie : (collectUsedTriples env.elems).isEmpty = false := by
    cases hx : collectUsedTriples env.elems with
    | nil => exact absurd hx hne
    | cons a l => rfl
  simp [buildFontEmbedCSS, hie, hc]

/-- The builder on an embed-cache miss whose loop succeeds: the joined
parts, stored under the key. -/
theorem build_miss_ok {env : Env} {st : St} {parts : List String}
    {uc fc : List (String × String)} {tr : List Ev}
    (hne : collectUsedTriples env.elems ≠ [])
    (hm : mgetT (buildKey (collectUsedTriples env.elems)) st.embedCssForTriplesCache = none)
    (hp : processRules env.fetchOracle
        (getMatchingFontFaceRules env.sheets (collectUsedTriples env.elems))
        st.fontDataUrlCache st.inlinedFaceCache = ⟨.ok parts, uc, fc, tr⟩) :
    buildFontEmbedCSS env st =
      ⟨.ok (joinSep "\n" parts),
        ⟨uc, fc, mset (buildKey (collectUsedTriples env.elems)) (joinSep "\n" parts)
          st.embedCssForTriplesCache⟩,
        (.readEmbed (buildKey (collectUsedTriples env.elems)) :: .scanRules :: tr)
          ++ [.writeEmbed (buildKey (collectUsedTriples env.elems))]⟩ := by
  have hie : (collectUsedTriples env.elems).isEmpty = false := by
    cases hx : collectUsedTriples env.elems with
    | nil => exact absurd hx hne
    | cons a l => rfl
  simp [buildFontEmbedCSS, hie, hm, hp]

/-- The builder on an embed-cache miss whose loop fails: the fetch error,
embed cache untouched. -/
theorem build_miss_err {env : Env} {st : St} {e : String}
    {uc fc : List (String × String)} {tr : List Ev}
    (hne : collectUsedTriples env.elems ≠ [])
    (hm : mgetT (buildKey (collectUsedTriples env.elems)) st.embedCssForTriplesCache = none)
    (hp : processRules env.fetchOracle
        (getMatchingFontFaceRules env.sheets (collectUsedTriples env.elems))
        st.fontDataUrlCache st.inlinedFaceCache = ⟨.error e, uc, fc, tr⟩) :
    buildFontEmbedCSS env st =
      ⟨.error e, ⟨uc, fc, st.embedCssForTriplesCache⟩,
        .readEmbed (buildKey (collectUsedTriples env.elems)) :: .scanRules :: tr⟩ := by
  have hie : (collectUsedTriples env.elems).isEmpty = false := by
    cases hx : collectUsedTriples env.elems with
    | nil => exact absurd hx hne
    | cons a l => rfl
  simp [buildFontEmbedCSS, hie, hm, hp]

/-- C8: for every subtree whose collected variant set is empty, the
builder returns the empty string immediately, with the cache state
untouched and an empty event trace — so no cache was read or written, no
style rules were scanned and no fetch was performed. -/
theorem claim_C8_empty_collect (env : Env) (st : St)
    (h : collectUsedTriples env.elems = []) :
    buildFontEmbedCSS env st = ⟨.ok "", st, []⟩ :=
  build_empty h

/-- Witness for C8: a subtree whose only element resolves to the generic
family sans-serif collects nothing, and the build returns the empty
string with untouched state and empty trace. -/
theorem claim_C8_witness :
    collectUsedTriples [⟨"sans-serif", "400", "normal"⟩] = []
    ∧ buildFontEmbedCSS ⟨[⟨"sans-serif", "400", "normal"⟩], [], fun _ => .error "404"⟩
        ⟨[], [], []⟩ = ⟨.ok "", ⟨[], [], []⟩, []⟩ :=
  ⟨rfl, claim_C8_empty_collect ⟨[⟨"sans-serif", "400", "normal"⟩], [], fun _ => .error "404"⟩
    ⟨[], [], []⟩ rfl⟩

/-- C9: a stored empty string is never observed as a cache hit.  If a
build with a nonempty collected set returned the empty string, then the
empty string is stored under its key, the truthiness test still reports a
miss, and the next build with the same environment re-runs the style-rule
scan and returns the empty string again. -/
theorem claim_C9_empty_never_hit (env : Env) (st0 st1 : St) (tr1 : List Ev)
    (hne : collectUsedTriples env.elems ≠ [])
    (h : buildFontEmbedCSS env st0 = ⟨.ok "", st1, tr1⟩) :
    mget (buildKey (collectUsedTriples env.elems)) st1.embedCssForTriplesCache = some ""
    ∧ mgetT (buildKey (collectUsedTriples env.elems)) st1.embedCssForTriplesCache = none
    ∧ (buildFontEmbedCSS env st1).val = .ok ""
    ∧ Ev.scanRules ∈ (buildFontEmbedCSS env st1).tr := by
  cases hm0 : mgetT (buildKey (collectUsedTriples env.elems)) st0.embedCssForTriplesCache with
  | some c =>
    rw [build_hit hne hm0] at h
    injection h with e1 e2 e3
    injection e1 with e1'
    exact absurd e1' (mgetT_eq_some hm0).2
  | none =>
    cases hp : processRules env.fetchOracle
        (getMatchingFontFaceRules env.sheets (collectUsedTriples env.elems))
        st0.fontDataUrlCache st0.inlinedFaceCache with
    | mk pv puc pfc ptr =>
      cases pv with
      | error e =>
        rw [build_miss_err hne hm0 hp] at h
        injection h with e1 e2 e3
        cases e1
      | ok parts =>
        rw [build_miss_ok hne hm0 hp] at h
        injection h with e1 e2 e3
        injection e1 with e1'
        have hparts : parts = [] := joinSep_eq_empty (processRules_parts_ne hp) e1'
        subst hparts
        obtain ⟨g1, g2, -⟩ := processRules_ok_nil_inv hp
        subst g1
        subst g2
        have hjoin : joinSep "\n" ([] : List String) = "" := rfl
        rw [hjoin] at e2
        subst e2
        have hm1 : mgetT (buildKey (collectUsedTriples env.elems))
            (mset (buildKey (collectUsedTriples env.elems)) ""
              st0.embedCssForTriplesCache) = none := by
          unfold mgetT
          rw [mget_mset_self]
          rfl
        have hb2 := @build_miss_ok env
          ⟨st0.fontDataUrlCache, st0.inlinedFaceCache,
            mset (buildKey (collectUsedTriples env.elems)) "" st0.embedCssForTriplesCache⟩
          [] st0.fontDataUrlCache st0.inlinedFaceCache ptr hne hm1 hp
        refine ⟨mget_mset_self _ _ _, hm1, ?_, ?_⟩
        · rw [hb2]
          rfl
        · rw [hb2]
          simp

/-- Witness for C9: a subtree using the family Ghost with no matching
font-face rule stores the empty string, which the second call treats as a
miss, re-scanning the rules and returning the empty string again. -/
theorem claim_C9_witness :
    mget (buildKey (collectUsedTriples [⟨"Ghost", "400", "normal"⟩]))
        (St.embedCssForTriplesCache ⟨[], [], [("Ghost||400||normal", "")]⟩) = some ""
    ∧ mgetT (buildKey (collectUsedTriples [⟨"Ghost", "400", "normal"⟩]))
        (St.embedCssForTriplesCache ⟨[], [], [("Ghost||400||normal", "")]⟩) = none
    ∧ (buildFontEmbedCSS ⟨[⟨"Ghost", "400", "normal"⟩], [], fun _ => .error "404"⟩
        ⟨[], [], [("Ghost||400||normal", "")]⟩).val = .ok ""
    ∧ Ev.scanRules ∈ (buildFontEmbedCSS ⟨[⟨"Ghost", "400", "normal"⟩], [], fun _ => .error "404"⟩
        ⟨[], [], [("Ghost||400||normal", "")]⟩).tr :=
  claim_C9_empty_never_hit ⟨[⟨"Ghost", "400", "normal"⟩], [], fun _ => .error "404"⟩
    ⟨[], [], []⟩ ⟨[], [], [("Ghost||400||normal", "")]⟩
    [.readEmbed "Ghost||400||normal", .scanRules, .writeEmbed "Ghost||400||normal"]
    (by decide) rfl

/-- C1: calling the builder a second time with the same environment and
the state left by a successful first call returns the identical output,
and the second call's trace contains no fetch event. -/
theorem claim_C1_idempotent (env : Env) (st0 st1 : St) (r : String) (tr1 : List Ev)
    (h : buildFontEmbedCSS env st0 = ⟨.ok r, st1, tr1⟩) :
    (buildFontEmbedCSS env st1).val = .ok r
    ∧ ∀ u, Ev.fetch u ∉ (buildFontEmbedCSS env st1).tr := by
  cases hcol : collectUsedTriples env.elems with
  | nil =>
    rw [build_empty hcol] at h
    injection h with e1 e2 e3
    injection e1 with e1'
    subst e2
    subst e1'
    rw [build_empty hcol]
    exact ⟨rfl, by simp⟩
  | cons a l =>
    have hne : collectUsedTriples env.elems ≠ [] := by
      intro hc
      rw [hc] at hcol
      cases hcol
    cases hm0 : mgetT (buildKey (collectUsedTriples env.elems)) st0.embedCssForTriplesCache with
    | some c =>
      rw [build_hit hne hm0] at h
      injection h with e1 e2 e3
      injection e1 with e1'
      subst e2
      subst e1'
      rw [build_hit hne hm0]
      exact ⟨rfl, by simp⟩
    | none =>
      cases hp : processRules env.fetchOracle
          (getMatchingFontFaceRules env.sheets (collectUsedTriples env.elems))
          st0.fontDataUrlCache st0.inlinedFaceCache with
      | mk pv puc pfc ptr =>
        cases pv with
        | error e =>
          rw [build_miss_err hne hm0 hp] at h
          injection h with e1 e2 e3
          cases e1
        | ok parts =>
          rw [build_miss_ok hne hm0 hp] at h
          injection h with e1 e2 e3
          injection e1 with e1'
          subst e1'
          by_cases hr : joinSep "\n" parts = ""
          · have hparts : parts = [] := joinSep_eq_empty (processRules_parts_ne hp) hr
            subst hparts
            obtain ⟨g1, g2, g3⟩ := processRules_ok_nil_inv hp
            subst g1
            subst g2
            have hjoin : joinSep "\n" ([] : List String) = "" := rfl
            rw [hjoin] at e2
            subst e2
            have hm1 : mgetT (buildKey (collectUsedTriples env.elems))
                (mset (buildKey (collectUsedTriples env.elems)) ""
                  st0.embedCssForTriplesCache) = none := by
              unfold mgetT
              rw [mget_mset_self]
              rfl
            have hb2 := @build_miss_ok env
              ⟨st0.fontDataUrlCache, st0.inlinedFaceCache,
                mset (buildKey (collectUsedTriples env.elems)) "" st0.embedCssForTriplesCache⟩
              [] st0.fontDataUrlCache st0.inlinedFaceCache ptr hne hm1 hp
            refine ⟨by rw [hb2], fun u => ?_⟩
            rw [hb2]
            intro hcmem
            simp only [List.mem_cons, List.mem_append, List.mem_singleton] at hcmem
            rcases hcmem with (hc | hc | hc) | hc | hc
            · cases hc
            · cases hc
            · exact g3 u hc
            · cases hc
            · cases hc
          · have hm1 : mgetT (buildKey (collectUsedTriples env.elems))
                (mset (buildKey (collectUsedTriples env.elems)) (joinSep "\n" parts)
                  st0.embedCssForTriplesCache) = none ∨ True := Or.inr trivial
            have hhit : mgetT (buildKey (collectUsedTriples env.elems))
                (mset (buildKey (collectUsedTriples env.elems)) (joinSep "\n" parts)
                  st0.embedCssForTriplesCache) = some (joinSep "\n" parts) :=
              mgetT_mset_self hr
            have hb2 := @build_hit env
              ⟨puc, pfc,
                mset (buildKey (collectUsedTriples env.elems)) (joinSep "\n" parts)
                  st0.embedCssForTriplesCache⟩
              (joinSep "\n" parts) hne hhit
            subst e2
            refine ⟨by rw [hb2], fun u => ?_⟩
            rw [hb2]
            simp

/-- C2: a fetch whose response has a non-success status makes the whole
build fail with the fetch error — the error value of the builder is the
fetch failure message, and the failing fetch is the last event of the
trace, so nothing is retried and no partial result is produced. -/
theorem claim_C2_fetch_error_aborts (env : Env) (st : St) (u s : String)
    (ho : env.fetchOracle u = .error s)
    (hm : Ev.fetch u ∈ (buildFontEmbedCSS env st).tr) :
    (buildFontEmbedCSS env st).val =
      .error ("Font fetch failed: " ++ u ++ " (" ++ s ++ ")")
    ∧ (buildFontEmbedCSS env st).tr.getLast? = some (.fetch u) := by
  cases hcol : collectUsedTriples env.elems with
  | nil =>
    rw [build_empty hcol] at hm
    simp at hm
  | cons a l =>
    have hne : collectUsedTriples env.elems ≠ [] := by
      intro hc
      rw [hc] at hcol
      cases hcol
    cases hm0 : mgetT (buildKey (collectUsedTriples env.elems)) st.embedCssForTriplesCache with
    | some c =>
      rw [build_hit hne hm0] at hm
      simp at hm
    | none =>
      have hpf := @processRules_fetch_inv env.fetchOracle
        (getMatchingFontFaceRules env.sheets (collectUsedTriples env.elems))
        st.fontDataUrlCache st.inlinedFaceCache u s ho
      cases hp : processRules env.fetchOracle
          (getMatchingFontFaceRules env.sheets (collectUsedTriples env.elems))
          st.fontDataUrlCache st.inlinedFaceCache with
      | mk pv puc pfc ptr =>
        rw [hp] at hpf
        cases pv with
        | error e =>
          rw [build_miss_err hne hm0 hp] at hm ⊢
          have hm' : Ev.fetch u ∈ ptr := by simpa using hm
          obtain ⟨hv, hl⟩ := hpf hm'
          have hptr : ptr ≠ [] := by
            intro hnil
            rw [hnil] at hm'
            simp at hm'
          constructor
          · simpa using hv
          · show (Ev.readEmbed (buildKey (collectUsedTriples env.elems)) ::
                Ev.scanRules :: ptr).getLast? = some (.fetch u)
            rw [getLast?_cons_of_ne_nil (List.cons_ne_nil _ _),
              getLast?_cons_of_ne_nil hptr]
            simpa using hl
        | ok parts =>
          rw [build_miss_ok hne hm0 hp] at hm
          have hm' : Ev.fetch u ∈ ptr := by simpa using hm
          obtain ⟨hv, -⟩ := hpf hm'
          simp at hv

/-- Network oracle of the successful end-to-end example: the woff2 url
resolves to a data URL, everything else fails with status 404. -/
def wOracle : String → Except String String :=
  fun u => if u = "https://e/a.woff2" then .ok "data:font/woff2;base64,AAAA" else .error "404"

/-- Font-face rule of the end-to-end example: a woff candidate listed
before a woff2 candidate. -/
def wRule : FaceRule :=
  ⟨"Inter", "400", "normal", "",
    "url(https://e/a.woff) format('woff'), url(https://e/a.woff2) format('woff2')"⟩

/-- Environment of the end-to-end example: one element using Inter 400
normal and one sheet holding the rule. -/
def wEnv : Env := ⟨[⟨"Inter", "400", "normal"⟩], [⟨some [.fontFace wRule]⟩], wOracle⟩

/-- The text the example build produces. -/
def wCss : String :=
  "@font-face\x7bfont-family:Inter;font-style:normal;font-weight:400;src:url(data:font/woff2;base64,AAAA) format('woff2');font-display:block;\x7d"

/-- The cache state after the example build from empty caches. -/
def wSt : St :=
  ⟨[("https://e/a.woff2", "data:font/woff2;base64,AAAA")],
    [("Inter||400||normal||", wCss)], [("Inter||400||normal", wCss)]⟩

/-- The trace of the example build from empty caches. -/
def wTr : List Ev :=
  [.readEmbed "Inter||400||normal", .scanRules, .readFace "Inter||400||normal||",
    .readUrl "https://e/a.woff2", .fetch "https://e/a.woff2",
    .writeUrl "https://e/a.woff2", .writeFace "Inter||400||normal||",
    .writeEmbed "Inter||400||normal"]

/-- Witness for C1: after the example build, a second build returns the
identical text and fetches nothing. -/
theorem claim_C1_witness :
    (buildFontEmbedCSS wEnv wSt).val = .ok wCss
    ∧ ∀ u, Ev.fetch u ∉ (buildFontEmbedCSS wEnv wSt).tr :=
  claim_C1_idempotent wEnv ⟨[], [], []⟩ wSt wCss wTr rfl

/-- Environment whose fetches always fail with status 404. -/
def wErrEnv : Env :=
  ⟨[⟨"Inter", "400", "normal"⟩], [⟨some [.fontFace wRule]⟩], fun _ => .error "404"⟩

/-- Witness for C2: with a failing network the build errors with the
fetch-failure message and its trace ends at the failing fetch. -/
theorem claim_C2_witness :
    (buildFontEmbedCSS wErrEnv ⟨[], [], []⟩).val =
      .error ("Font fetch failed: " ++ "https://e/a.woff2" ++ " (" ++ "404" ++ ")")
    ∧ (buildFontEmbedCSS wErrEnv ⟨[], [], []⟩).tr.getLast? =
      some (.fetch "https://e/a.woff2") :=
  claim_C2_fetch_error_aborts wErrEnv ⟨[], [], []⟩ "https://e/a.woff2" "404" rfl (by decide)

/-- The generic prefixes of the amended reading of the collector filter. -/
def genericPrefixes : List String := ["serif", "sans-serif", "monospace", "system-ui", "ui-"]

/-- Modelled from the amended specification wording: the contribution is
skipped when the lowercased first family has any of the five generic
strings as a prefix. -/
def isGenericFamilyPrefix (family : String) : Bool :=
  genericPrefixes.any (fun p => p.data.isPrefixOf (toLowerS family).data)

/-- The anchored alternation of the source regex is exactly the
any-prefix test of the amended wording. -/
theorem genericTest_eq_isGenericFamilyPrefix (f : String) :
    genericTest f = isGenericFamilyPrefix f := by
  simp [genericTest, isGenericFamilyPrefix, genericPrefixes, List.any_cons, List.any_nil,
    Bool.or_assoc, Bool.or_false]

/-- The skip predicate exactly as claim C3 states it: equality with one
of the generic keyword families, or a name beginning with ui-. -/
def isGenericKeywordClaim (family : String) : Bool :=
  let lf := toLowerS family
  lf = "serif" || lf = "sans-serif" || lf = "monospace" || lf = "system-ui" ||
    "ui-".data.isPrefixOf lf.data

/-- C3 counterexample: the family serifish equals no generic keyword and
does not begin with ui-, so the claim predicts a contributed variant; the
collector's anchored alternation is a prefix test and skips it, collecting
nothing. -/
theorem claim_C3_counterexample :
    isGenericKeywordClaim "serifish" = false
    ∧ collectUsedTriples [⟨"serifish", "400", "normal"⟩] = [] :=
  ⟨rfl, rfl⟩

/-- C3 amended: an element's contribution is skipped exactly when its
first resolved family (after quote stripping) is empty or its lowercased
name has one of serif, sans-serif, monospace, system-ui, ui- as a prefix;
the test is a prefix match, so names merely beginning with serif are also
skipped. -/
theorem claim_C3_amended (e : Elem) :
    collectUsedTriples [e] = [] ↔
      (elemFirstFamily e = "" ∨ isGenericFamilyPrefix (elemFirstFamily e) = true) := by
  by_cases hf : elemFirstFamily e = ""
  · simp [collectUsedTriples, elemTriple?, hf]
  · by_cases hg : genericTest (elemFirstFamily e) = true
    · have hg' : isGenericFamilyPrefix (elemFirstFamily e) = true := by
        rw [← genericTest_eq_isGenericFamilyPrefix]
        exact hg
      simp [collectUsedTriples, elemTriple?, hf, hg, hg']
    · have hg0 : genericTest (elemFirstFamily e) = false := by
        cases hgb : genericTest (elemFirstFamily e)
        · rfl
        · exact absurd hgb hg
      have hg' : isGenericFamilyPrefix (elemFirstFamily e) = false := by
        rw [← genericTest_eq_isGenericFamilyPrefix]
        exact hg0
      simp [collectUsedTriples, elemTriple?, hf, hg0, hg']

/-- C4 counterexample: two elements whose resolved triples differ only in
letter case contribute two distinct elements to the collected set — not a
single one — and the resulting memoization key differs from the key of the
single-element subtree. -/
theorem claim_C4_counterexample :
    collectUsedTriples [⟨"Inter", "400", "normal"⟩, ⟨"INTER", "400", "normal"⟩]
      = ["Inter||400||normal", "INTER||400||normal"]
    ∧ buildKey (collectUsedTriples [⟨"Inter", "400", "normal"⟩, ⟨"INTER", "400", "normal"⟩])
      ≠ buildKey (collectUsedTriples [⟨"Inter", "400", "normal"⟩]) :=
  ⟨rfl, by decide⟩

/-- C4 amended: the collected variant set and hence the embed-cache key
are case-sensitive — two elements whose triples agree up to case but are
not equal contribute two distinct set elements; lowercase normalization is
applied only when the matcher builds its want keys, where the two triples
produce the same lowercase key. -/
theorem claim_C4_amended (e1 e2 : Elem) (t1 t2 : String)
    (h1 : elemTriple? e1 = some t1) (h2 : elemTriple? e2 = some t2)
    (hne : t1 ≠ t2) (hlc : toLowerS t1 = toLowerS t2) :
    collectUsedTriples [e1, e2] = [t1, t2]
    ∧ (collectUsedTriples [e1, e2]).map toLowerS = [toLowerS t1, toLowerS t1] := by
  have hbeq : (t1 == t2) = false := beq_eq_false_iff_ne.mpr hne
  have hc : collectUsedTriples [e1, e2] = [t1, t2] := by
    simp [collectUsedTriples, h1, h2, List.contains, hbeq]
    exact fun hx => hne hx.symm
  refine ⟨hc, ?_⟩
  rw [hc]
  simp [hlc]

/-- Witness for C4: Inter and INTER with identical weight and style give
a two-element collected set whose two want keys coincide. -/
theorem claim_C4_witness :
    collectUsedTriples [⟨"Inter", "400", "normal"⟩, ⟨"INTER", "400", "normal"⟩]
      = ["Inter||400||normal", "INTER||400||normal"]
    ∧ (collectUsedTriples [⟨"Inter", "400", "normal"⟩, ⟨"INTER", "400", "normal"⟩]).map toLowerS
      = [toLowerS "Inter||400||normal", toLowerS "Inter||400||normal"] :=
  claim_C4_amended ⟨"Inter", "400", "normal"⟩ ⟨"INTER", "400", "normal"⟩
    "Inter||400||normal" "INTER||400||normal" rfl rfl (by decide) rfl

/-- The keyword-weight normalization both the collector and the matcher
apply: normal becomes 400, bold becomes 700, everything else is kept. -/
def normKeyword (w : String) : String :=
  if w = "normal" then "400" else if w = "bold" then "700" else w

/-- C7: weight normalization maps normal to 400 and bold to 700 and keeps
every other weight string, and the collector and the matcher apply the
same normalization to their trimmed, defaulted weight values: an element
and a font-face rule whose processed families and styles agree up to case
and whose weights agree after normalization (for instance normal against
400, or bold against 700, in either direction) produce matching keys, so
the rule is returned by the matcher. -/
theorem claim_C7_weight_normalization :
    (normKeyword "normal" = "400" ∧ normKeyword "bold" = "700"
      ∧ ∀ w, w ≠ "normal" → w ≠ "bold" → normKeyword w = w)
    ∧ ∀ (e : Elem) (ff : FaceRule),
        elemFirstFamily e ≠ "" →
        genericTest (elemFirstFamily e) = false →
        declFamily ff ≠ "" →
        toLowerS (declFamily ff) = toLowerS (elemFirstFamily e) →
        toLowerS (declStyleVal ff) = toLowerS (elemStyleVal e) →
        normKeyword (trimS (orD ff.weight "400")) =
          normKeyword (trimS (orD e.fontWeight "400")) →
        getMatchingFontFaceRules [⟨some [CRule.fontFace ff]⟩] (collectUsedTriples [e])
          = [ff] := by
  refine ⟨⟨rfl, rfl, fun w h1 h2 => ?_⟩, fun e ff hf hg hdf hfam hsty hw => ?_⟩
  · unfold normKeyword
    rw [if_neg h1, if_neg h2]
  · have hcol : collectUsedTriples [e] =
        [elemFirstFamily e ++ "||" ++ normKeyword (trimS (orD e.fontWeight "400"))
          ++ "||" ++ elemStyleVal e] := by
      simp [collectUsedTriples, elemTriple?, hf, hg, normKeyword]
    have hkey : toLowerS (declFamily ff ++ "||" ++ normKeyword (trimS (orD ff.weight "400"))
          ++ "||" ++ declStyleVal ff)
        = toLowerS (elemFirstFamily e ++ "||" ++ normKeyword (trimS (orD e.fontWeight "400"))
          ++ "||" ++ elemStyleVal e) := by
      simp only [toLowerS_append]
      rw [hfam, hsty, hw]
    have hdecl : declKey? ff =
        some (toLowerS (elemFirstFamily e ++ "||"
          ++ normKeyword (trimS (orD e.fontWeight "400")) ++ "||" ++ elemStyleVal e)) := by
      rw [← hkey]
      simp [declKey?, hdf, normKeyword]
    rw [hcol]
    simp [getMatchingFontFaceRules, hdecl]

/-- Witness for C7: an element with computed weight normal matches a rule
declaring weight 400 (with a quoted family and a case-variant style), and
the keyword equalities evaluate as stated. -/
theorem claim_C7_witness :
    (normKeyword "normal" = "400" ∧ normKeyword "bold" = "700" ∧ normKeyword "350" = "350")
    ∧ getMatchingFontFaceRules [⟨some [CRule.fontFace ⟨"'Inter'", "400", "Italic", "", ""⟩]⟩]
        (collectUsedTriples [⟨"Inter", "normal", "italic"⟩])
      = [⟨"'Inter'", "400", "Italic", "", ""⟩] :=
  ⟨⟨claim_C7_weight_normalization.1.1, claim_C7_weight_normalization.1.2.1,
    claim_C7_weight_normalization.1.2.2 "350" (by decide) (by decide)⟩,
    claim_C7_weight_normalization.2 ⟨"Inter", "normal", "italic"⟩
      ⟨"'Inter'", "400", "Italic", "", ""⟩ (by decide) rfl (by decide) rfl rfl rfl⟩

/-- C10: a font-face rule whose src yields no url-format candidate makes
the face inliner return null with untouched caches, no fetch and only the
cache-read event, and the per-rule loop of the builder drops the rule,
producing the same parts, caches and result as without it. -/
theorem claim_C10_no_candidates (o : String → Except String String) (ff : FaceRule)
    (uc fc : List (String × String))
    (hsrc : parseCandidates ff.src = [])
    (hmiss : mgetT (faceSig ff) fc = none) :
    inlineFontFace o ff uc fc = ⟨.ok none, uc, fc, [.readFace (faceSig ff)]⟩
    ∧ ∀ rs, processRules o (ff :: rs) uc fc =
        ⟨(processRules o rs uc fc).val, (processRules o rs uc fc).fontDataUrlCache,
          (processRules o rs uc fc).inlinedFaceCache,
          .readFace (faceSig ff) :: (processRules o rs uc fc).tr⟩ := by
  have hw : woff2Pick (parseCandidates ff.src) = none := by
    rw [hsrc]
    rfl
  have hinl := inlineFontFace_nopick o uc hmiss hw
  refine ⟨hinl, fun rs => ?_⟩
  cases hP : processRules o rs uc fc with
  | mk v uc' fc' tr => simp [processRules, hinl, hP]

/-- Witness for C10: a src with a url reference but no format clause
parses to no candidate, and the face inliner returns null leaving the
caches empty with a read-only trace. -/
theorem claim_C10_witness :
    parseCandidates "url(https://x/a.woff)" = []
    ∧ inlineFontFace (fun _ => .error "404")
        ⟨"Inter", "400", "normal", "", "url(https://x/a.woff)"⟩ [] []
      = ⟨.ok none, [], [], [.readFace "Inter||400||normal||"]⟩ :=
  ⟨rfl, (claim_C10_no_candidates (fun _ => .error "404")
    ⟨"Inter", "400", "normal", "", "url(https://x/a.woff)"⟩ [] [] rfl rfl).1⟩

/-- find? returns the first element satisfying the predicate. -/
theorem find?_first {α : Type} {p : α → Bool} :
    ∀ (pre : List α) (u : α) (post : List α),
      (∀ x ∈ pre, p x = false) → p u = true →
      List.find? p (pre ++ u :: post) = some u
  | [], u, post, _, hu => by simp [List.find?_cons, hu]
  | x :: pre', u, post, hpre, hu => by
    have hx : p x = false := hpre x (by simp)
    simp only [List.cons_append, List.find?_cons, hx]
    exact find?_first pre' u post (fun y hy => hpre y (by simp [hy])) hu

/-- On a cache miss the face inliner calls the resource inliner on the
chosen candidate's url, which is visible as a read event of the url
cache. -/
theorem inlineFontFace_pick_readUrl {o : String → Except String String} {ff : FaceRule}
    {uc fc : List (String × String)} {p : Cand}
    (hmiss : mgetT (faceSig ff) fc = none)
    (hpick : woff2Pick (parseCandidates ff.src) = some p) :
    Ev.readUrl p.url ∈ (inlineFontFace o ff uc fc).tr := by
  have hrm := urlToDataUrl_readUrl_mem o p.url uc
  cases hu : urlToDataUrl o p.url uc with
  | mk v uc' tr' =>
    rw [hu] at hrm
    cases v with
    | error e =>
      rw [inlineFontFace_pick_err hmiss hpick hu]
      simp only [List.mem_cons]
      exact Or.inr (by simpa using hrm)
    | ok d =>
      rw [inlineFontFace_pick_ok hmiss hpick hu]
      simp only [List.cons_append, List.mem_cons, List.mem_append]
      exact Or.inr (Or.inl (by simpa using hrm))

/-- C5: on a cache miss, the face inliner inlines the first candidate
whose (lowercased) format contains the substring woff2; when no candidate
does, it inlines the first candidate in listed order.  The chosen
candidate's url is the one handed to the resource inliner. -/
theorem claim_C5_candidate_selection (o : String → Except String String) (ff : FaceRule)
    (uc fc : List (String × String))
    (hmiss : mgetT (faceSig ff) fc = none) :
    (∀ pre u post, parseCandidates ff.src = pre ++ u :: post →
        containsS u.format "woff2" = true →
        (∀ x ∈ pre, containsS x.format "woff2" = false) →
        Ev.readUrl u.url ∈ (inlineFontFace o ff uc fc).tr)
    ∧ ((∀ x ∈ parseCandidates ff.src, containsS x.format "woff2" = false) →
        ∀ u rest, parseCandidates ff.src = u :: rest →
        Ev.readUrl u.url ∈ (inlineFontFace o ff uc fc).tr) := by
  constructor
  · intro pre u post hdecomp hu hpre
    have hfind : List.find? (fun x => containsS x.format "woff2") (parseCandidates ff.src)
        = some u := by
      rw [hdecomp]
      exact find?_first pre u post hpre hu
    have hpick : woff2Pick (parseCandidates ff.src) = some u := by
      unfold woff2Pick
      rw [hfind]
    exact inlineFontFace_pick_readUrl hmiss hpick
  · intro hall u rest hdecomp
    have hfind : List.find? (fun x => containsS x.format "woff2") (parseCandidates ff.src)
        = none := by
      rw [List.find?_eq_none]
      intro x hx
      simp [hall x hx]
    have hpick : woff2Pick (parseCandidates ff.src) = some u := by
      unfold woff2Pick
      rw [hfind, hdecomp]
      rfl
    exact inlineFontFace_pick_readUrl hmiss hpick

/-- Witness for C5: in the end-to-end rule a woff candidate is listed
before the woff2 candidate, and the inliner reads the woff2 url. -/
theorem claim_C5_witness :
    Ev.readUrl "https://e/a.woff2" ∈ (inlineFontFace wOracle wRule [] []).tr :=
  (claim_C5_candidate_selection wOracle wRule [] [] rfl).1
    [⟨"https://e/a.woff", "woff"⟩] ⟨"https://e/a.woff2", "woff2"⟩ [] rfl rfl (by decide)

/-- A falsy default with a nonempty default value is nonempty. -/
theorem orD_ne {x d : String} (hd : d ≠ "") : orD x d ≠ "" := by
  unfold orD
  split
  · exact hd
  · next h => exact h

/-- Trim-then-default collapses a whitespace-only or absent value to the
default, for defaults that are their own trim. -/
theorem orD_default_of_trim_empty {x d : String} (hd : trimS d = d) (hx : trimS x = "") :
    orD (trimS (orD x d)) d = d := by
  by_cases h : x = ""
  · have h1 : orD x d = d := by
      unfold orD
      rw [if_pos h]
    rw [h1, hd]
    unfold orD
    split <;> rfl
  · have h1 : orD x d = x := by
      unfold orD
      rw [if_neg h]
    rw [h1, hx]
    unfold orD
    rw [if_pos rfl]

/-- C6: on a cache miss, a successfully inlined rule renders exactly one
font-face block with a single src declared as format woff2 regardless of
the chosen candidate's original format, a font-display block declaration,
font-style defaulting to normal and font-weight defaulting to 400 when the
rule's values are empty after trimming, and a unicode-range declaration
present exactly when the rule's trimmed unicode-range is nonempty. -/
theorem claim_C6_rendered_face (o : String → Except String String) (ff : FaceRule)
    (uc fc : List (String × String)) {css : String} {uc2 fc2 : List (String × String)}
    {tr : List Ev}
    (hmiss : mgetT (faceSig ff) fc = none)
    (h : inlineFontFace o ff uc fc = ⟨.ok (some css), uc2, fc2, tr⟩) :
    ∃ fam sty wt ur d,
      css = "@font-face\x7b" ++ ("font-family:" ++ fam ++ ";")
        ++ ("font-style:" ++ sty ++ ";")
        ++ ("font-weight:" ++ wt ++ ";" ++ ur ++ "src:url(" ++ d ++ ") format('woff2');")
        ++ "font-display:block;" ++ "\x7d"
      ∧ sty ≠ "" ∧ wt ≠ ""
      ∧ (trimS ff.style = "" → sty = "normal")
      ∧ (trimS ff.weight = "" → wt = "400")
      ∧ ur = (if trimS ff.uRange = "" then ""
          else "unicode-range:" ++ trimS ff.uRange ++ ";") := by
  cases hw : woff2Pick (parseCandidates ff.src) with
  | none =>
    rw [inlineFontFace_nopick o uc hmiss hw] at h
    cases h
  | some p =>
    cases hu : urlToDataUrl o p.url uc with
    | mk v uc' tr' =>
      cases v with
      | error e =>
        rw [inlineFontFace_pick_err hmiss hw hu] at h
        cases h
      | ok d =>
        rw [inlineFontFace_pick_ok hmiss hw hu] at h
        cases h
        exact ⟨trimS ff.family, orD (trimS (orD ff.style "normal")) "normal",
          orD (trimS (orD ff.weight "400")) "400",
          (if trimS ff.uRange = "" then ""
            else "unicode-range:" ++ trimS ff.uRange ++ ";"),
          d, rfl, orD_ne (by decide), orD_ne (by decide),
          fun hs => orD_default_of_trim_empty rfl hs,
          fun hw2 => orD_default_of_trim_empty rfl hw2, rfl⟩

/-- Rule of the C6 witness: empty style and weight, a unicode-range, one
woff2 candidate. -/
def wRule6 : FaceRule := ⟨"Inter", "", "", "U+0-5F", "url(https://e/a.woff2) format('woff2')"⟩

/-- Witness for C6: the rendered block of the witness rule has the stated
shape, with defaulted style and weight and its unicode-range included. -/
theorem claim_C6_witness :
    ∃ fam sty wt ur d,
      "@font-face\x7bfont-family:Inter;font-style:normal;font-weight:400;unicode-range:U+0-5F;src:url(data:font/woff2;base64,AAAA) format('woff2');font-display:block;\x7d"
        = "@font-face\x7b" ++ ("font-family:" ++ fam ++ ";")
          ++ ("font-style:" ++ sty ++ ";")
          ++ ("font-weight:" ++ wt ++ ";" ++ ur ++ "src:url(" ++ d ++ ") format('woff2');")
          ++ "font-display:block;" ++ "\x7d"
      ∧ sty ≠ "" ∧ wt ≠ ""
      ∧ (trimS wRule6.style = "" → sty = "normal")
      ∧ (trimS wRule6.weight = "" → wt = "400")
      ∧ ur = (if trimS wRule6.uRange = "" then ""
          else "unicode-range:" ++ trimS wRule6.uRange ++ ";") :=
  claim_C6_rendered_face wOracle wRule6 [] [] rfl rfl
